import Mathlib

/-!
# Verification of the nilla parser (`src/parser.rs`)

A shallow embedding of the recursive-descent parser in `src/parser.rs`.
Every Rust parsing method mutates `self.pos` and returns a
`Result<T, &'static str>`; we model this as functions from a parser state
to a pair `(Except PErr T) × PState`: the state is threaded through even
on the error path, because the Rust code sometimes keeps parsing after
storing an error value (`parse_primary`, `parse_send_expr`).  A Rust
`panic!` (and the unchecked index in `curr`) is modelled as the
distinguished error value `PErr.panicked`, which every translated call
site propagates unchanged, mirroring process abortion.

Recursion in the Rust code (loops and mutual recursion between the
expression parsers) is modelled with an explicit fuel parameter; running
out of fuel yields the distinguished error `fuelErr`, which never occurs
on the concrete inputs evaluated below and leaves all `= .ok …` theorems
unaffected.
-/

namespace NillaParser

/-- Modelled from the spec: the `Token` variants of §3 of the specification
(the lexer, `src/lexer.rs`, is outside the provided sources; the parser
only pattern-matches on these variants and ignores every position
payload, which we model as a `Nat`). -/
inductive Token where
  | Class : Token
  | Trait : Token
  | Def : Token
  | Impl : Token
  | End : Token
  | Const (pos : Nat) (text : String) : Token
  | Ident (pos : Nat) (text : String) : Token
  | Number (pos : Nat) (value : Nat) : Token
  | StringLiteral (pos : Nat) (text : String) : Token
  | Space (pos : Nat) : Token
  | NewLine (pos : Nat) : Token
  | LParen : Token
  | RParen : Token
  | Comma : Token
  | Dot : Token
  | Assign : Token
  | Arrow : Token
  | Op (ch : Char) : Token
  | SelfRef : Token
deriving DecidableEq, Repr

/-- `enum BaseType` from `parser.rs`. -/
inductive BaseType where
  | Int : BaseType
  | StringType : BaseType
  | Void : BaseType
  | Undef (class_name : String) : BaseType
deriving DecidableEq, Repr

/-- `struct Arg` from `parser.rs`. -/
structure Arg where
  name : String
  return_type : BaseType
deriving DecidableEq, Repr

/-- `struct Prototype` from `parser.rs`. -/
structure Prototype where
  name : String
  args : List Arg
  return_type : Option BaseType
  is_op : Bool
  prec : Nat
deriving DecidableEq, Repr

/-- `enum Node` from `parser.rs`, with the fields of the wrapped structs
(`AssignLocalVar`, `Binary`, `Call`, `Send`, `Int`, `InterpolableString`,
`Module`, `Class`, `Trait`, `Impl`, `SelfRef`, `LocalVar`, `Def`) inlined
into the constructors. -/
inductive Node where
  | SelfRef : Node
  | AssignLocalVar (name : String) (value : Node) : Node
  | Binary (op : Char) (left : Node) (right : Node) : Node
  | Call (fn_name : String) (args : List Node) : Node
  | Send (receiver : Node) (message : Node) : Node
  | Def (main_fn : Bool) (prototype : Prototype) (body : List Node)
      (class_name : String) (impl_name : String) : Node
  | Int (value : Nat) : Node
  | InterpolableString (value : String) : Node
  | Module (body : List Node) : Node
  | Impl (name : String) (body : List Node) : Node
  | Class (name : String) (body : List Node) : Node
  | Trait (name : String) (body : List Node) : Node
  | LocalVar (name : String) (return_type : Option BaseType) : Node
deriving Repr

/-- The display name of a `BaseType` (shared body of
`LocalVar::nilla_class_name` and `Arg::nilla_class_name`). -/
def baseTypeName : BaseType → String
  | .Int => "Int"
  | .StringType => "Str"
  | .Void => ""
  | .Undef class_name => class_name

/-- `LocalVar::nilla_class_name` from `parser.rs` (on the `return_type`
field of a `LocalVar`). -/
def localVarClassName : Option BaseType → String
  | some rt => baseTypeName rt
  | none => ""

/-- `Arg::nilla_class_name` from `parser.rs`. -/
def argClassName (a : Arg) : String := baseTypeName a.return_type

/-- The `op_precedence: HashMap<char, i32>` table, modelled as an
association list. -/
abbrev PrecTable := List (Char × Int)

/-- `HashMap::get` on the precedence table. -/
def lookupPrec (tbl : PrecTable) (c : Char) : Option Int :=
  match tbl.find? (fun p => p.1 == c) with
  | some p => some p.2
  | none => none

/-- An error outcome: either a Rust `panic!`/out-of-bounds index (process
abort) or an `Err(&'static str)` value. -/
inductive PErr where
  | panicked : PErr
  | msg (s : String) : PErr
deriving DecidableEq, Repr

/-- The fuel-exhaustion error (never hit on the inputs evaluated below). -/
def fuelErr : PErr := .msg "out of fuel"

/-- The cursor state of `struct Parser`: the token sequence and the read
position (`op_precedence` is passed separately; `index` and
`current_body` are never populated by the parsing logic). -/
structure PState where
  tokens : List Token
  pos : Nat
deriving DecidableEq, Repr

/-- Result-with-state: the Rust methods mutate `self.pos` and return a
`Result`; both components are returned here. -/
abbrev PRes (α : Type) := Except PErr α × PState

/-- `Parser::curr`: `self.tokens[self.pos].clone()` — an unchecked index,
which panics when `pos` is at or past the end. -/
def curr (s : PState) : Except PErr Token :=
  if h : s.pos < s.tokens.length then .ok (s.tokens.get ⟨s.pos, h⟩)
  else .error .panicked

/-- `Parser::current`: the bounds-checked read. -/
def current (s : PState) : Except PErr Token :=
  if h : s.pos < s.tokens.length then .ok (s.tokens.get ⟨s.pos, h⟩)
  else .error (.msg "Position doesn't match the token count")

/-- The unconditional cursor move shared by every call to
`Parser::advance` (the Rust method always sets `self.pos = self.pos + 1`
before deciding whether to return `Ok` or `Err`). -/
def advanceState (s : PState) : PState := { s with pos := s.pos + 1 }

/-- `Parser::advance`: moves the cursor, then errors iff the new position
is not a valid index. -/
def advance (s : PState) : PRes Unit :=
  let s := advanceState s
  if s.pos < s.tokens.length then (.ok (), s)
  else (.error (.msg "Unexpected end of file."), s)

/-- `Parser::at_end`. -/
def at_end (s : PState) : Bool := s.tokens.length ≤ s.pos

/-- The loop of `Parser::advance_optional_whitespace`, driven by the
explicit bound `s.tokens.length - s.pos` on the number of remaining
iterations (each iteration that continues advances the cursor by one, so
the bound is exact). -/
def skipWsAux : Nat → PState → PState
  | 0, s => s
  | n + 1, s =>
    match current s with
    | .ok (.Space _) => skipWsAux n (advanceState s)
    | .ok (.NewLine _) => skipWsAux n (advanceState s)
    | _ => s
termination_by structural n => n

/-- `Parser::advance_optional_whitespace`: skips any run of
`Space`/`NewLine` tokens (ignoring the `Result` of each `advance`; the
loop stops at the latest when `current` fails at the end of the
sequence, after `s.tokens.length - s.pos` steps). -/
def skipWs (s : PState) : PState := skipWsAux (s.tokens.length - s.pos) s

/-- `Parser::advance_optional_space`: skips at most one `Space` token
(ignoring the `Result` of the `advance`). -/
def skipSpace (s : PState) : PState :=
  match current s with
  | .ok (.Space _) => advanceState s
  | _ => s

/-- `Parser::get_tok_precedence`: the mapped precedence of the current
token when it is an `Op` (with fallback 100), and −1 otherwise. -/
def get_tok_precedence (tbl : PrecTable) (s : PState) : Int :=
  match current s with
  | .ok (.Op op) => (lookupPrec tbl op).getD 100
  | _ => -1

/-- `Parser::parse_nb_expr`. -/
def parse_nb_expr (s : PState) : PRes Node :=
  match curr s with
  | .error e => (.error e, s)
  | .ok (.Number _ nb) => (.ok (.Int nb), advanceState s)
  | .ok _ => (.error (.msg "Expected number literal."), s)

/-- `Parser::parse_string_expr`. -/
def parse_string_expr (s : PState) : PRes Node :=
  match curr s with
  | .error e => (.error e, s)
  | .ok (.StringLiteral _ string) => (.ok (.InterpolableString string), advanceState s)
  | .ok _ => (.error (.msg "Expected string literal."), s)

/-- `Parser::parse_self_ref_expr`. -/
def parse_self_ref_expr (s : PState) : PRes Node :=
  match curr s with
  | .error e => (.error e, s)
  | .ok .SelfRef => (.ok .SelfRef, advanceState s)
  | .ok _ => (.error (.msg "Expected SelfRef"), s)

/-- The final `match self.curr()` of `Parser::parse_return_type`
(mapping a `Const` type name after an arrow). -/
def parse_return_type_name (s : PState) : PRes (Option BaseType) :=
  match curr s with
  | .error e => (.error e, s)
  | .ok (.Const _ name) =>
    if name = "Str" then (.ok (some .StringType), advanceState s)
    else if name = "Int" then (.ok (some .Int), advanceState s)
    else (.ok (some (.Undef name)), advanceState s)
  | .ok _ => (.error (.msg "Expected a return type after an arrow"), s)

/-- `Parser::parse_return_type`. -/
def parse_return_type (s : PState) : PRes (Option BaseType) :=
  match current s with
  | .error e => (.error e, s)
  | .ok (.NewLine _) => (.ok none, advanceState s)
  | .ok .Arrow => parse_return_type_name (advanceState s)
  | .ok (.Space _) =>
    let s := advanceState s
    match curr s with
    | .error e => (.error e, s)
    | .ok .Arrow => parse_return_type_name (skipSpace (advanceState s))
    | .ok (.NewLine _) => (.ok none, advanceState s)
    | .ok _ => (.error (.msg "Expected an arrow to indicate a return type"), s)
  | .ok _ => (.error (.msg "Expected an end to the function definition"), s)

/-- The argument-list loop of `Parser::parse_prototype` (lines 448–488
of `parser.rs`), accumulating parsed `Arg`s. -/
def proto_args_loop : Nat → List Arg → PState → PRes (List Arg)
  | 0, _, s => (.error fuelErr, s)
  | fuel + 1, args, s =>
    let s := skipWs s
    match curr s with
    | .error e => (.error e, s)
    | .ok (.Ident _ arg_name) =>
      (match advance s with
      | (.error e, s) => (.error e, s)
      | (.ok _, s) =>
        let s := skipSpace s
        match curr s with
        | .error e => (.error e, s)
        | .ok (.Const _ type_name) =>
          let return_type : BaseType :=
            if type_name = "Str" then .StringType
            else if type_name = "Int" then .Int
            else .Undef type_name
          let args := args ++ [⟨arg_name, return_type⟩]
          (match advance s with
          | (.error e, s) => (.error e, s)
          | (.ok _, s) =>
            let s := skipWs s
            match curr s with
            | .error e => (.error e, s)
            | .ok .RParen => (.ok args, advanceState s)
            | .ok .Comma => proto_args_loop fuel args (advanceState s)
            | .ok _ => (.error (.msg "Expected ',' or ')' character in prototype declaration. 2"), s))
        | .ok _ => (.error (.msg "Expected type name for argument"), s))
    | .ok _ => (.error (.msg "Expected identifier in parameter declaration."), s)
termination_by structural fuel args s => fuel

/-- `Parser::parse_prototype`. -/
def parse_prototype (fuel : Nat) (s : PState) : PRes Prototype :=
  match current s with
  | .error e => (.error e, s)
  | .ok (.Space _) =>
    let s := advanceState s
    match curr s with
    | .error e => (.error e, s)
    | .ok (.Ident _ id) =>
      (match advance s with
      | (.error e, s) => (.error e, s)
      | (.ok _, s) =>
        let s := skipSpace s
        match curr s with
        | .error e => (.error e, s)
        | .ok .LParen =>
          let s := advanceState s
          let s := skipWs s
          (match curr s with
          | .error e => (.error e, s)
          | .ok .RParen =>
            let s := advanceState s
            (match parse_return_type s with
            | (.error e, s) => (.error e, s)
            | (.ok rt, s) =>
              (.ok ⟨id, [], rt, false, 0⟩, s))
          | .ok _ =>
            match proto_args_loop fuel [] s with
            | (.error e, s) => (.error e, s)
            | (.ok args, s) =>
              match parse_return_type s with
              | (.error e, s) => (.error e, s)
              | (.ok rt, s) => (.ok ⟨id, args, rt, false, 0⟩, s))
        | .ok (.NewLine _) =>
          (.ok ⟨id, [], none, false, 0⟩, advanceState s)
        | .ok _ => (.error (.msg "Expected '(' character in prototype declaration. 2"), s))
    | .ok _ => (.error (.msg "Expected identifier in prototype declaration."), s)
  | .ok _ => (.error (.msg "Expected space after def keyword"), s)

/-- `struct ParserContext` from `parser.rs`: the function body built so
far and the enclosing prototype. -/
structure ParserContext where
  body : List Node
  prototype : Prototype

/-- The local-variable resolution of `Parser::parse_ident_expr`
(lines 672–717 of `parser.rs`): the reverse scan of the body being built
for the closest `AssignLocalVar`, with the prototype's argument list as
fallback. -/
def resolve_lvar (ctx : ParserContext) (ident_name : String) : Except PErr Node :=
  let closest_assignment := ctx.body.reverse.find? (fun node =>
    match node with
    | .AssignLocalVar name _ => name == ident_name
    | _ => false)
  match closest_assignment with
  | some node =>
    (match node with
    | .AssignLocalVar _ value =>
      (match value with
      | .Int _ =>
        .ok (.LocalVar ident_name (some (.Undef ("Int"))))
      | .InterpolableString _ =>
        .ok (.LocalVar ident_name (some (.Undef ("Str"))))
      | .LocalVar _ rt =>
        .ok (.LocalVar ident_name (some (.Undef (localVarClassName rt))))
      | _ => .error (.msg "Local variable assignment was given an unsupprted node"))
    | _ => .error (.msg "Node other than AssignLocalVar in closest_assignment"))
  | none =>
    match ctx.prototype.args.find? (fun a => a.name == ident_name) with
    | some arg =>
      .ok (.LocalVar ident_name (some (.Undef (argClassName arg))))
    | none => .error (.msg "Local variable isn't assigned anywhere")

mutual

/-- `Parser::parse_expr`. -/
def parse_expr (tbl : PrecTable) : Nat → ParserContext → PState → PRes Node
  | 0, _, s => (.error fuelErr, s)
  | fuel + 1, ctx, s =>
    match parse_unary_expr tbl fuel ctx s with
    | (.ok left, s) =>
      let s := skipWs s
      parse_binary_expr tbl fuel ctx 0 left s
    | (.error e, s) => (.error e, s)
termination_by structural fuel ctx s => fuel

/-- `Parser::parse_unary_expr`. -/
def parse_unary_expr (tbl : PrecTable) : Nat → ParserContext → PState → PRes Node
  | 0, _, s => (.error fuelErr, s)
  | fuel + 1, ctx, s =>
    match current s with
    | .error e => (.error e, s)
    | .ok (.Op ch) =>
      (match advance s with
      | (.error e, s) => (.error e, s)
      | (.ok _, s) =>
        match parse_unary_expr tbl fuel ctx s with
        | (.error e, s) => (.error e, s)
        | (.ok operand, s) =>
          (.ok (.Call (String.push "unary" ch) [operand]), s))
    | .ok _ => parse_primary tbl fuel ctx s
termination_by structural fuel ctx s => fuel

/-- `Parser::parse_primary`.  Note that the Rust code keeps the `Result`
of the dispatched sub-parser as a value, unconditionally skips
whitespace, reads `curr` (which may panic), and only then either feeds
the stored `Result` into `parse_send_expr` or returns it. -/
def parse_primary (tbl : PrecTable) : Nat → ParserContext → PState → PRes Node
  | 0, _, s => (.error fuelErr, s)
  | fuel + 1, ctx, s =>
    let node : PRes Node :=
      match curr s with
      | .error e => (.error e, s)
      | .ok (.Ident _ _) => parse_ident_expr tbl fuel ctx s
      | .ok (.Number _ _) => parse_nb_expr s
      | .ok (.StringLiteral _ _) => parse_string_expr s
      | .ok .LParen => parse_paren_expr tbl fuel ctx s
      | .ok .SelfRef => parse_self_ref_expr s
      | .ok _ => (.error .panicked, s)
    match node with
    | (node, s) =>
      let s := skipWs s
      match curr s with
      | .error e => (.error e, s)
      | .ok .Dot => parse_send_expr tbl fuel ctx node s
      | .ok _ => (node, s)
termination_by structural fuel ctx s => fuel

/-- `Parser::parse_ident_expr`. -/
def parse_ident_expr (tbl : PrecTable) : Nat → ParserContext → PState → PRes Node
  | 0, _, s => (.error fuelErr, s)
  | fuel + 1, ctx, s =>
    match curr s with
    | .error e => (.error e, s)
    | .ok (.Ident _ ident_name) =>
      let s := advanceState s
      let s := skipWs s
      (match curr s with
      | .error e => (.error e, s)
      | .ok .LParen =>
        (match advance s with
        | (.error e, s) => (.error e, s)
        | (.ok _, s) =>
          let s := skipWs s
          match curr s with
          | .error e => (.error e, s)
          | .ok .RParen => (.ok (.Call ident_name []), advanceState s)
          | .ok _ => call_args_loop tbl fuel ctx ident_name [] s)
      | .ok _ =>
        let s := skipSpace s
        match curr s with
        | .error e => (.error e, s)
        | .ok .Assign =>
          (match advance s with
          | (.error e, s) => (.error e, s)
          | (.ok _, s) =>
            let s := skipWs s
            match parse_expr tbl fuel ctx s with
            | (.error e, s) => (.error e, s)
            | (.ok value, s) => (.ok (.AssignLocalVar ident_name value), s))
        | .ok _ => (resolve_lvar ctx ident_name, s))
    | .ok _ => (.error (.msg "Expected identifier."), s)
termination_by structural fuel ctx s => fuel

/-- The call-argument loop of `Parser::parse_ident_expr` (lines 637–654
of `parser.rs`). -/
def call_args_loop (tbl : PrecTable) : Nat → ParserContext → String → List Node → PState → PRes Node
  | 0, _, _, _, s => (.error fuelErr, s)
  | fuel + 1, ctx, fn_name, args, s =>
    let s := skipWs s
    match parse_expr tbl fuel ctx s with
    | (.error e, s) => (.error e, s)
    | (.ok arg, s) =>
      let args := args ++ [arg]
      let s := skipWs s
      match curr s with
      | .error e => (.error e, s)
      | .ok .RParen => (.ok (.Call fn_name args), advanceState s)
      | .ok .Comma => call_args_loop tbl fuel ctx fn_name args (advanceState s)
      | .ok _ => (.error (.msg "Expected ',' or ')' character in function call."), s)
termination_by structural fuel ctx fn_name args s => fuel

/-- `Parser::parse_send_expr`.  The receiver is a stored `Result`,
checked first; the trailing-`Dot` check again reads `curr` after the
message has been parsed. -/
def parse_send_expr (tbl : PrecTable) : Nat → ParserContext → Except PErr Node → PState → PRes Node
  | 0, _, _, s => (.error fuelErr, s)
  | fuel + 1, ctx, receiver, s =>
    match receiver with
    | .error e => (.error e, s)
    | .ok receiver =>
      let s := advanceState s
      let send_node : PRes Node :=
        match curr s with
        | .error e => (.error e, s)
        | .ok (.Ident _ _) =>
          (match parse_ident_expr tbl fuel ctx s with
          | (.ok node, s) => (.ok (.Send receiver node), s)
          | (.error e, s) => (.error e, s))
        | .ok _ => (.error (.msg "Expected an identifier after a dot"), s)
      match send_node with
      | (send_node, s) =>
        let s := skipWs s
        match curr s with
        | .error e => (.error e, s)
        | .ok .Dot => parse_send_expr tbl fuel ctx send_node s
        | .ok _ => (send_node, s)
termination_by structural fuel ctx receiver s => fuel

/-- `Parser::parse_paren_expr`. -/
def parse_paren_expr (tbl : PrecTable) : Nat → ParserContext → PState → PRes Node
  | 0, _, s => (.error fuelErr, s)
  | fuel + 1, ctx, s =>
    match current s with
    | .error e => (.error e, s)
    | .ok .LParen =>
      let s := skipWs s
      (match advance s with
      | (.error e, s) => (.error e, s)
      | (.ok _, s) =>
        match parse_expr tbl fuel ctx s with
        | (.error e, s) => (.error e, s)
        | (.ok expr, s) =>
          let s := skipWs s
          match current s with
          | .error e => (.error e, s)
          | .ok .RParen =>
            (match advance s with
            | (.error e, s) => (.error e, s)
            | (.ok _, s) => (.ok expr, s))
          | .ok _ => (.error (.msg "Expected ')' character at end of parenthesized expression."), s))
    | .ok _ => (.error (.msg "Expected '(' character at start of parenthesized expression."), s)
termination_by structural fuel ctx s => fuel

/-- `Parser::parse_binary_expr` (precedence climbing).  The Rust `loop`
with its mutated `left` is modelled as tail recursion on the fuel. -/
def parse_binary_expr (tbl : PrecTable) : Nat → ParserContext → Int → Node → PState → PRes Node
  | 0, _, _, _, s => (.error fuelErr, s)
  | fuel + 1, ctx, prec, left, s =>
    match current s with
    | .ok .End => (.ok left, s)
    | _ =>
      let curr_prec := get_tok_precedence tbl s
      if curr_prec < prec then (.ok left, s)
      else if at_end s then (.ok left, s)
      else
        match curr s with
        | .error e => (.error e, s)
        | .ok (.Op op) =>
          (match advance s with
          | (.error e, s) => (.error e, s)
          | (.ok _, s) =>
            let s := skipWs s
            match parse_unary_expr tbl fuel ctx s with
            | (.error e, s) => (.error e, s)
            | (.ok right, s) =>
              let next_prec := get_tok_precedence tbl s
              let s := skipWs s
              if curr_prec < next_prec then
                match parse_binary_expr tbl fuel ctx (curr_prec + 1) right s with
                | (.error e, s) => (.error e, s)
                | (.ok right, s) =>
                  parse_binary_expr tbl fuel ctx prec (.Binary op left right) s
              else
                parse_binary_expr tbl fuel ctx prec (.Binary op left right) s)
        | .ok _ => (.error (.msg "Invalid operator."), s)
termination_by structural fuel ctx prec left s => fuel

end

/-- The body loop of `Parser::parse_def` (lines 364–381 of `parser.rs`):
parses expressions until `End`; on `End` the token is consumed only when
the accumulated body is non-empty. -/
def parse_def_body (tbl : PrecTable) : Nat → Prototype → List Node → PState → PRes (List Node)
  | 0, _, _, s => (.error fuelErr, s)
  | fuel + 1, prototype, body, s =>
    let s := skipWs s
    match current s with
    | .error e => (.error e, s)
    | .ok .End =>
      if body.length > 0 then (.ok body, advanceState s) else (.ok body, s)
    | .ok _ =>
      match parse_expr tbl fuel ⟨body, prototype⟩ s with
      | (.error e, s) => (.error e, s)
      | (.ok expr, s) => parse_def_body tbl fuel prototype (body ++ [expr]) s
termination_by structural fuel prototype body s => fuel

/-- `Parser::parse_def`: skips the `def` keyword (`self.pos += 1`, an
unchecked move), parses the prototype, then the body, and returns the
single `Def` node with `main_fn` set iff the prototype name is
`"main"`. -/
def parse_def (tbl : PrecTable) (fuel : Nat) (class_name impl_name : String) (s : PState) : PRes (List Node) :=
  let s := advanceState s
  match parse_prototype fuel s with
  | (.error e, s) => (.error e, s)
  | (.ok prototype, s) =>
    let s := skipWs s
    match parse_def_body tbl fuel prototype [] s with
    | (.error e, s) => (.error e, s)
    | (.ok body, s) =>
      (.ok [Node.Def (prototype.name == "main") prototype body class_name impl_name], s)

/-- The member loop of `Parser::parse_impl` (lines 329–346). -/
def parse_impl_body (tbl : PrecTable) : Nat → String → String → List Node → PState → PRes (List Node)
  | 0, _, _, _, s => (.error fuelErr, s)
  | fuel + 1, class_name, name, functions, s =>
    let s := skipWs s
    match current s with
    | .error e => (.error e, s)
    | .ok .Def =>
      (match parse_def tbl fuel class_name name s with
      | (.error e, s) => (.error e, s)
      | (.ok results, s) => parse_impl_body tbl fuel class_name name (functions ++ results) s)
    | .ok .End => (.ok functions, advanceState s)
    | .ok _ => (.error (.msg "Expected only def within an impl block"), s)
termination_by structural fuel class_name name functions s => fuel

/-- `Parser::parse_impl`. -/
def parse_impl (tbl : PrecTable) (fuel : Nat) (class_name : String) (s : PState) : PRes (List Node) :=
  let s := advanceState s
  let s := skipSpace s
  match current s with
  | .error e => (.error e, s)
  | .ok (.Const _ name) =>
    (match advance s with
    | (.error e, s) => (.error e, s)
    | (.ok _, s) =>
      let s := skipSpace s
      match curr s with
      | .error e => (.error e, s)
      | .ok (.NewLine _) => parse_impl_body tbl fuel class_name name [] (advanceState s)
      | .ok _ => (.error (.msg "Expected a new line after impl name"), s))
  | .ok _ => (.error (.msg "Expected identifier in impl declaration."), s)

/-- The member loop of `Parser::parse_trait` (lines 285–300). -/
def parse_trait_body (tbl : PrecTable) : Nat → String → List Node → PState → PRes (List Node)
  | 0, _, _, s => (.error fuelErr, s)
  | fuel + 1, name, functions, s =>
    let s := skipWs s
    match current s with
    | .error e => (.error e, s)
    | .ok .Def =>
      (match parse_def tbl fuel name "" s with
      | (.error e, s) => (.error e, s)
      | (.ok results, s) => parse_trait_body tbl fuel name (functions ++ results) s)
    | .ok .End => (.ok functions, advanceState s)
    | .ok _ => (.error (.msg "Expected only def within a trait"), s)
termination_by structural fuel name functions s => fuel

/-- `Parser::parse_trait`. -/
def parse_trait (tbl : PrecTable) (fuel : Nat) (s : PState) : PRes (List Node) :=
  let s := advanceState s
  let s := skipSpace s
  match current s with
  | .error e => (.error e, s)
  | .ok (.Const _ name) =>
    (match advance s with
    | (.error e, s) => (.error e, s)
    | (.ok _, s) =>
      let s := skipSpace s
      match curr s with
      | .error e => (.error e, s)
      | .ok (.NewLine _) => parse_trait_body tbl fuel name [] (advanceState s)
      | .ok _ => (.error (.msg "Expected a new line after class name"), s))
  | .ok _ => (.error (.msg "Expected identifier in prototype declaration."), s)

/-- The member loop of `Parser::parse_class` (lines 240–256). -/
def parse_class_body (tbl : PrecTable) : Nat → String → List Node → PState → PRes (List Node)
  | 0, _, _, s => (.error fuelErr, s)
  | fuel + 1, class_name, functions, s =>
    let s := skipWs s
    match current s with
    | .error e => (.error e, s)
    | .ok .Def =>
      (match parse_def tbl fuel class_name "" s with
      | (.error e, s) => (.error e, s)
      | (.ok results, s) => parse_class_body tbl fuel class_name (functions ++ results) s)
    | .ok .Impl =>
      (match parse_impl tbl fuel class_name s with
      | (.error e, s) => (.error e, s)
      | (.ok results, s) => parse_class_body tbl fuel class_name (functions ++ results) s)
    | .ok .End => (.ok functions, advanceState s)
    | .ok _ => (.error (.msg "Expected def, impl, or end to to the class."), s)
termination_by structural fuel class_name functions s => fuel

/-- `Parser::parse_class`. -/
def parse_class (tbl : PrecTable) (fuel : Nat) (s : PState) : PRes (List Node) :=
  let s := advanceState s
  let s := skipSpace s
  match current s with
  | .error e => (.error e, s)
  | .ok (.Const _ class_name) =>
    (match advance s with
    | (.error e, s) => (.error e, s)
    | (.ok _, s) =>
      let s := skipSpace s
      match curr s with
      | .error e => (.error e, s)
      | .ok (.NewLine _) => parse_class_body tbl fuel class_name [] (advanceState s)
      | .ok _ => (.error (.msg "Expected a new line after class name"), s))
  | .ok _ => (.error (.msg "Expected identifier in prototype declaration."), s)

/-- The top-level loop of `Parser::parse` (lines 193–209). -/
def parse_top (tbl : PrecTable) : Nat → List Node → PState → PRes (List Node)
  | 0, _, s => (.error fuelErr, s)
  | fuel + 1, body, s =>
    let s := skipWs s
    if at_end s then (.ok body, s)
    else
      match current s with
      | .error e => (.error e, s)
      | .ok .Class =>
        (match parse_class tbl fuel s with
        | (.error e, s) => (.error e, s)
        | (.ok results, s) => parse_top tbl fuel (body ++ results) s)
      | .ok .Trait =>
        (match parse_trait tbl fuel s with
        | (.error e, s) => (.error e, s)
        | (.ok results, s) => parse_top tbl fuel (body ++ results) s)
      | .ok .Def =>
        (match parse_def tbl fuel "" "" s with
        | (.error e, s) => (.error e, s)
        | (.ok results, s) => parse_top tbl fuel (body ++ results) s)
      | .ok _ => (.error (.msg "Expected class, def, or trait"), s)
termination_by structural fuel body s => fuel

/-- `Parser::parse`: the public entry point, returning the `Module` root
node (the `ParserResultIndex` the Rust code pairs with it is always the
empty map). -/
def parse (tbl : PrecTable) (fuel : Nat) (tokens : List Token) : Except PErr Node :=
  match parse_top tbl fuel [] ⟨tokens, 0⟩ with
  | (.ok body, _) => .ok (.Module body)
  | (.error e, _) => .error e

/-! ## Invariant predicates over the produced AST -/

/-- The message kinds `parse_ident_expr` can actually return (and hence
the kinds a `Send` message can be): `Call`, `LocalVar` or
`AssignLocalVar`. -/
def isMsgKind : Node → Bool
  | .Call _ _ => true
  | .LocalVar _ _ => true
  | .AssignLocalVar _ _ => true
  | _ => false

/-- The message kinds named by the specification's table for `Send`:
only `Call` or `LocalVar`. -/
def isMsgKindSpec : Node → Bool
  | .Call _ _ => true
  | .LocalVar _ _ => true
  | _ => false

mutual

/-- Deep invariant: every `Send` in the tree has a message that is a
`Call`, `LocalVar` or `AssignLocalVar`. -/
def sendMsgOk : Node → Bool
  | .SelfRef => true
  | .AssignLocalVar _ value => sendMsgOk value
  | .Binary _ l r => sendMsgOk l && sendMsgOk r
  | .Call _ args => sendMsgOkList args
  | .Send r m => sendMsgOk r && sendMsgOk m && isMsgKind m
  | .Def _ _ body _ _ => sendMsgOkList body
  | .Int _ => true
  | .InterpolableString _ => true
  | .Module body => sendMsgOkList body
  | .Impl _ body => sendMsgOkList body
  | .Class _ body => sendMsgOkList body
  | .Trait _ body => sendMsgOkList body
  | .LocalVar _ _ => true

/-- `sendMsgOk` on every element of a list. -/
def sendMsgOkList : List Node → Bool
  | [] => true
  | n :: ns => sendMsgOk n && sendMsgOkList ns

end

mutual

/-- The specification's claimed deep invariant: every `Send` in the tree
has a message that is a `Call` or a `LocalVar`. -/
def sendMsgSpec : Node → Bool
  | .SelfRef => true
  | .AssignLocalVar _ value => sendMsgSpec value
  | .Binary _ l r => sendMsgSpec l && sendMsgSpec r
  | .Call _ args => sendMsgSpecList args
  | .Send r m => sendMsgSpec r && sendMsgSpec m && isMsgKindSpec m
  | .Def _ _ body _ _ => sendMsgSpecList body
  | .Int _ => true
  | .InterpolableString _ => true
  | .Module body => sendMsgSpecList body
  | .Impl _ body => sendMsgSpecList body
  | .Class _ body => sendMsgSpecList body
  | .Trait _ body => sendMsgSpecList body
  | .LocalVar _ _ => true

/-- `sendMsgSpec` on every element of a list. -/
def sendMsgSpecList : List Node → Bool
  | [] => true
  | n :: ns => sendMsgSpec n && sendMsgSpecList ns

end

mutual

/-- Deep invariant: no `Class`, `Trait` or `Impl` node occurs anywhere
in the tree. -/
def noCTI : Node → Bool
  | .SelfRef => true
  | .AssignLocalVar _ value => noCTI value
  | .Binary _ l r => noCTI l && noCTI r
  | .Call _ args => noCTIList args
  | .Send r m => noCTI r && noCTI m
  | .Def _ _ body _ _ => noCTIList body
  | .Int _ => true
  | .InterpolableString _ => true
  | .Module body => noCTIList body
  | .Impl _ _ => false
  | .Class _ _ => false
  | .Trait _ _ => false
  | .LocalVar _ _ => true

/-- `noCTI` on every element of a list. -/
def noCTIList : List Node → Bool
  | [] => true
  | n :: ns => noCTI n && noCTIList ns

end

/-- Whether a node is a `Def`. -/
def isDefB : Node → Bool
  | .Def _ _ _ _ _ => true
  | _ => false

theorem sendMsgOkList_append (l₁ l₂ : List Node) :
    sendMsgOkList (l₁ ++ l₂) = (sendMsgOkList l₁ && sendMsgOkList l₂) := by
  induction l₁ with
  | nil => simp [sendMsgOkList]
  | cons x xs ih => simp [sendMsgOkList, ih, Bool.and_assoc]

theorem noCTIList_append (l₁ l₂ : List Node) :
    noCTIList (l₁ ++ l₂) = (noCTIList l₁ && noCTIList l₂) := by
  induction l₁ with
  | nil => simp [noCTIList]
  | cons x xs ih => simp [noCTIList, ih, Bool.and_assoc]

/-! ## Cursor-primitive lemmas -/

theorem current_ok_at_end_false {s : PState} {t : Token} (h : current s = .ok t) :
    at_end s = false := by
  unfold current at h
  unfold at_end
  split at h
  · simp only [decide_eq_false_iff_not, Nat.not_le]
    omega
  · exact absurd h (by simp)

theorem current_ok_curr {s : PState} {t : Token} (h : current s = .ok t) :
    curr s = .ok t := by
  unfold current at h
  unfold curr
  split at h
  · rename_i hlt
    rw [dif_pos hlt]
    exact h
  · exact absurd h (by simp)

/-! ## Single-step characterisations of `parse_binary_expr`

These three lemmas restate the three ways one iteration of the Rust
`loop` in `parse_binary_expr` can go: return the accumulated left
operand on `End`, fold one operator without climbing, or absorb a
tighter-binding right context first.  They let the precedence theorems
below be proved with a symbolic precedence table. -/

theorem parse_binary_end (tbl : PrecTable) (fuel : Nat) (ctx : ParserContext)
    (prec : Int) (left : Node) (s : PState) (h : current s = .ok .End) :
    parse_binary_expr tbl (fuel + 1) ctx prec left s = (.ok left, s) := by
  simp only [parse_binary_expr, h]

theorem parse_binary_step_noclimb (tbl : PrecTable) (fuel : Nat) (ctx : ParserContext)
    (prec : Int) (left : Node) (s s₂ s' : PState) (op : Char) (cp np : Int) (right : Node)
    (hcur : current s = .ok (.Op op))
    (hpr : get_tok_precedence tbl s = cp)
    (hge : ¬ cp < prec)
    (hadv : advance s = (.ok (), s₂))
    (hun : parse_unary_expr tbl fuel ctx (skipWs s₂) = (.ok right, s'))
    (hnext : get_tok_precedence tbl s' = np)
    (hncl : ¬ cp < np) :
    parse_binary_expr tbl (fuel + 1) ctx prec left s
      = parse_binary_expr tbl fuel ctx prec (.Binary op left right) (skipWs s') := by
  have haend := current_ok_at_end_false hcur
  have hc := current_ok_curr hcur
  simp only [parse_binary_expr, hcur, hpr, hge, haend, hc, hadv, hun, hnext, hncl,
    Bool.false_eq_true, if_false, if_neg]

theorem parse_binary_step_climb (tbl : PrecTable) (fuel : Nat) (ctx : ParserContext)
    (prec : Int) (left : Node) (s s₂ s' s'' : PState) (op : Char) (cp np : Int)
    (right right2 : Node)
    (hcur : current s = .ok (.Op op))
    (hpr : get_tok_precedence tbl s = cp)
    (hge : ¬ cp < prec)
    (hadv : advance s = (.ok (), s₂))
    (hun : parse_unary_expr tbl fuel ctx (skipWs s₂) = (.ok right, s'))
    (hnext : get_tok_precedence tbl s' = np)
    (hcl : cp < np)
    (hrec : parse_binary_expr tbl fuel ctx (cp + 1) right (skipWs s') = (.ok right2, s'')) :
    parse_binary_expr tbl (fuel + 1) ctx prec left s
      = parse_binary_expr tbl fuel ctx prec (.Binary op left right2) s'' := by
  have haend := current_ok_at_end_false hcur
  have hc := current_ok_curr hcur
  simp only [parse_binary_expr, hcur, hpr, hge, haend, hc, hadv, hun, hnext, hcl,
    Bool.false_eq_true, if_false, if_neg, if_pos]
  rw [hrec]

end NillaParser
namespace NillaParser

/-- Goodness of a produced node: every `Send` message inside it is a
`Call`, `LocalVar` or `AssignLocalVar`, and no `Class`/`Trait`/`Impl`
node occurs inside it. -/
def GoodN (n : Node) : Prop := sendMsgOk n = true ∧ noCTI n = true

theorem sendMsgOkList_eq_forall (l : List Node) :
    sendMsgOkList l = true ↔ ∀ x ∈ l, sendMsgOk x = true := by
  induction l with
  | nil => simp [sendMsgOkList]
  | cons x xs ih => simp [sendMsgOkList, ih]

theorem noCTIList_eq_forall (l : List Node) :
    noCTIList l = true ↔ ∀ x ∈ l, noCTI x = true := by
  induction l with
  | nil => simp [noCTIList]
  | cons x xs ih => simp [noCTIList, ih]

theorem good_nb {s : PState} {n : Node}
    (h : (parse_nb_expr s).1 = .ok n) : GoodN n := by
  unfold parse_nb_expr at h
  split at h
  · simp at h
  · simp only [Except.ok.injEq] at h
    subst h
    simp [GoodN, sendMsgOk, noCTI]
  · simp at h

theorem good_string {s : PState} {n : Node}
    (h : (parse_string_expr s).1 = .ok n) : GoodN n := by
  unfold parse_string_expr at h
  split at h
  · simp at h
  · simp only [Except.ok.injEq] at h
    subst h
    simp [GoodN, sendMsgOk, noCTI]
  · simp at h

theorem good_self {s : PState} {n : Node}
    (h : (parse_self_ref_expr s).1 = .ok n) : GoodN n := by
  unfold parse_self_ref_expr at h
  split at h
  · simp at h
  · simp only [Except.ok.injEq] at h
    subst h
    simp [GoodN, sendMsgOk, noCTI]
  · simp at h

theorem good_resolve {ctx : ParserContext} {id : String} {n : Node}
    (h : resolve_lvar ctx id = .ok n) : GoodN n ∧ isMsgKind n = true := by
  simp only [resolve_lvar] at h
  repeat' split at h
  all_goals first
    | (simp only [Except.ok.injEq] at h
       subst h
       simp [GoodN, sendMsgOk, noCTI, isMsgKind])
    | simp at h

theorem expr_good (tbl : PrecTable) : ∀ fuel : Nat,
    (∀ ctx s n, (parse_expr tbl fuel ctx s).1 = .ok n → GoodN n)
    ∧ (∀ ctx s n, (parse_unary_expr tbl fuel ctx s).1 = .ok n → GoodN n)
    ∧ (∀ ctx s n, (parse_primary tbl fuel ctx s).1 = .ok n → GoodN n)
    ∧ (∀ ctx s n, (parse_ident_expr tbl fuel ctx s).1 = .ok n → GoodN n ∧ isMsgKind n = true)
    ∧ (∀ ctx fn args s n, (∀ a ∈ args, GoodN a) →
        (call_args_loop tbl fuel ctx fn args s).1 = .ok n → GoodN n ∧ isMsgKind n = true)
    ∧ (∀ ctx r s n, (∀ m, r = Except.ok m → GoodN m) →
        (parse_send_expr tbl fuel ctx r s).1 = .ok n → GoodN n)
    ∧ (∀ ctx s n, (parse_paren_expr tbl fuel ctx s).1 = .ok n → GoodN n)
    ∧ (∀ ctx prec left s n, GoodN left →
        (parse_binary_expr tbl fuel ctx prec left s).1 = .ok n → GoodN n) := by
  intro fuel
  induction fuel with
  | zero =>
    refine ⟨?_, ?_, ?_, ?_, ?_, ?_, ?_, ?_⟩
    · intro ctx s n h; simp [parse_expr] at h
    · intro ctx s n h; simp [parse_unary_expr] at h
    · intro ctx s n h; simp [parse_primary] at h
    · intro ctx s n h; simp [parse_ident_expr] at h
    · intro ctx fn args s n _ h; simp [call_args_loop] at h
    · intro ctx r s n _ h; simp [parse_send_expr] at h
    · intro ctx s n h; simp [parse_paren_expr] at h
    · intro ctx prec left s n _ h; simp [parse_binary_expr] at h
  | succ fuel ih =>
    obtain ⟨ihE, ihU, ihP, ihI, ihA, ihS, ihPar, ihB⟩ := ih
    refine ⟨?_, ?_, ?_, ?_, ?_, ?_, ?_, ?_⟩
    -- parse_expr
    · intro ctx s n h
      simp only [parse_expr] at h
      split at h
      · rename_i left s1 heq
        exact ihB ctx 0 left (skipWs s1) n (ihU ctx s left (by rw [heq])) h
      · simp at h
    -- parse_unary_expr
    · intro ctx s n h
      simp only [parse_unary_expr] at h
      split at h
      · simp at h
      · split at h
        · simp at h
        · split at h
          · simp at h
          · rename_i operand s3 heq
            simp only [Except.ok.injEq] at h
            subst h
            have hop := ihU ctx _ operand (by rw [heq])
            simp only [GoodN, sendMsgOk, sendMsgOkList, noCTI, noCTIList, Bool.and_true] at hop ⊢
            exact hop
      · exact ihP ctx s n h
    -- parse_primary
    · intro ctx s n h
      simp only [parse_primary] at h
      split at h
      · simp at h
      · refine ihS ctx _ _ n ?_ h
        intro m hm
        split at hm
        · simp at hm
        · exact (ihI ctx _ m hm).1
        · exact good_nb hm
        · exact good_string hm
        · exact ihPar ctx _ m hm
        · exact good_self hm
        · simp at hm
      · simp only [] at h
        split at h
        · simp at h
        · exact (ihI ctx _ n h).1
        · exact good_nb h
        · exact good_string h
        · exact ihPar ctx _ n h
        · exact good_self h
        · simp at h
    -- parse_ident_expr
    · intro ctx s n h
      simp only [parse_ident_expr] at h
      split at h
      · simp at h
      · split at h
        · simp at h
        · split at h
          · simp at h
          · split at h
            · simp at h
            · simp only [Except.ok.injEq] at h
              subst h
              simp [GoodN, sendMsgOk, sendMsgOkList, noCTI, noCTIList, isMsgKind]
            · exact ihA ctx _ [] _ n (by simp) h
        · split at h
          · simp at h
          · split at h
            · simp at h
            · split at h
              · simp at h
              · rename_i value s4 heq
                simp only [Except.ok.injEq] at h
                subst h
                have hv := ihE ctx _ value (by rw [heq])
                simp only [GoodN, sendMsgOk, noCTI, isMsgKind] at hv ⊢
                exact ⟨hv, trivial⟩
          · exact good_resolve h
      · simp at h
    -- call_args_loop
    · intro ctx fn args s n hargs h
      simp only [call_args_loop] at h
      split at h
      · simp at h
      · rename_i arg s1 heq
        have harg := ihE ctx _ arg (by rw [heq])
        split at h
        · simp at h
        · simp only [Except.ok.injEq] at h
          subst h
          refine ⟨⟨?_, ?_⟩, rfl⟩
          · simp only [sendMsgOk]
            rw [sendMsgOkList_eq_forall]
            intro x hx
            rcases List.mem_append.mp hx with hx | hx
            · exact (hargs x hx).1
            · simp only [List.mem_singleton] at hx
              subst hx
              exact harg.1
          · simp only [noCTI]
            rw [noCTIList_eq_forall]
            intro x hx
            rcases List.mem_append.mp hx with hx | hx
            · exact (hargs x hx).2
            · simp only [List.mem_singleton] at hx
              subst hx
              exact harg.2
        · refine ihA ctx fn (args ++ [arg]) _ n ?_ h
          intro a ha
          rcases List.mem_append.mp ha with ha | ha
          · exact hargs a ha
          · simp only [List.mem_singleton] at ha
            subst ha
            exact harg
        · simp at h
    -- parse_send_expr
    · intro ctx r s n hgood h
      simp only [parse_send_expr] at h
      split at h
      · simp at h
      · rename_i receiver
        have hrecv : GoodN receiver := hgood receiver rfl
        split at h
        · simp at h
        · refine ihS ctx _ _ n ?_ h
          intro m hm
          split at hm
          · simp at hm
          · split at hm
            · rename_i node s3 heq
              simp only [Except.ok.injEq] at hm
              subst hm
              have hmsg := ihI ctx _ node (by rw [heq])
              simp only [GoodN, sendMsgOk, noCTI] at hrecv hmsg ⊢
              simp [hrecv.1, hrecv.2, hmsg.1.1, hmsg.1.2, hmsg.2]
            · simp at hm
          · simp at hm
        · simp only [] at h
          split at h
          · simp at h
          · split at h
            · rename_i node s3 heq
              simp only [Except.ok.injEq] at h
              subst h
              have hmsg := ihI ctx _ node (by rw [heq])
              simp only [GoodN, sendMsgOk, noCTI] at hrecv hmsg ⊢
              simp [hrecv.1, hrecv.2, hmsg.1.1, hmsg.1.2, hmsg.2]
            · simp at h
          · simp at h
    -- parse_paren_expr
    · intro ctx s n h
      simp only [parse_paren_expr] at h
      split at h
      · simp at h
      · split at h
        · simp at h
        · split at h
          · simp at h
          · rename_i expr s3 heq
            split at h
            · simp at h
            · split at h
              · simp at h
              · simp only [Except.ok.injEq] at h
                subst h
                exact ihE ctx _ expr (by rw [heq])
            · simp at h
      · simp at h
    -- parse_binary_expr
    · intro ctx prec left s n hleft h
      simp only [parse_binary_expr] at h
      split at h
      · simp only [Except.ok.injEq] at h
        subst h
        exact hleft
      · split at h
        · simp only [Except.ok.injEq] at h
          subst h
          exact hleft
        · split at h
          · simp only [Except.ok.injEq] at h
            subst h
            exact hleft
          · split at h
            · simp at h
            · split at h
              · simp at h
              · split at h
                · simp at h
                · rename_i right s3 heq
                  have hright := ihU ctx _ right (by rw [heq])
                  split at h
                  · split at h
                    · simp at h
                    · rename_i right2 s4 heq2
                      have hright2 := ihB ctx _ right _ right2 hright (by rw [heq2])
                      refine ihB ctx prec _ _ n ?_ h
                      simp only [GoodN, sendMsgOk, noCTI] at hleft hright2 ⊢
                      simp [hleft.1, hleft.2, hright2.1, hright2.2]
                  · refine ihB ctx prec _ _ n ?_ h
                    simp only [GoodN, sendMsgOk, noCTI] at hleft hright ⊢
                    simp [hleft.1, hleft.2, hright.1, hright.2]
            · simp at h

end NillaParser
namespace NillaParser

/-- A top-level member produced by the structural parsers: a good `Def`
node. -/
def GoodDef (x : Node) : Prop := GoodN x ∧ isDefB x = true

theorem def_body_good (tbl : PrecTable) : ∀ fuel proto body s out,
    (∀ x ∈ body, GoodN x) → (parse_def_body tbl fuel proto body s).1 = .ok out →
    ∀ x ∈ out, GoodN x := by
  intro fuel
  induction fuel with
  | zero => intro proto body s out _ h; simp [parse_def_body] at h
  | succ fuel ih =>
    intro proto body s out hbody h
    simp only [parse_def_body] at h
    split at h
    · simp at h
    · split at h
      · simp only [Except.ok.injEq] at h
        subst h
        exact hbody
      · simp only [Except.ok.injEq] at h
        subst h
        exact hbody
    · split at h
      · simp at h
      · rename_i heq
        refine ih _ _ _ out ?_ h
        intro x hx
        rcases List.mem_append.mp hx with hx | hx
        · exact hbody x hx
        · simp only [List.mem_singleton] at hx
          subst hx
          exact (expr_good tbl fuel).1 _ _ x (by rw [heq])

theorem parse_def_good (tbl : PrecTable) (fuel : Nat) (cn im : String) (s : PState)
    (out : List Node) (h : (parse_def tbl fuel cn im s).1 = .ok out) :
    ∀ x ∈ out, GoodN x ∧ ∃ mf proto body, x = .Def mf proto body cn im
      ∧ mf = (proto.name == "main") := by
  simp only [parse_def] at h
  split at h
  · simp at h
  · rename_i heq1
    split at h
    · simp at h
    · rename_i heq2
      simp only [Except.ok.injEq] at h
      subst h
      intro x hx
      simp only [List.mem_singleton] at hx
      subst hx
      have hb := def_body_good tbl fuel _ [] _ _ (by simp) (by rw [heq2])
      refine ⟨⟨?_, ?_⟩, _, _, _, rfl, rfl⟩
      · simp only [sendMsgOk]
        rw [sendMsgOkList_eq_forall]
        intro y hy
        exact (hb y hy).1
      · simp only [noCTI]
        rw [noCTIList_eq_forall]
        intro y hy
        exact (hb y hy).2

theorem parse_def_goodDef (tbl : PrecTable) (fuel : Nat) (cn im : String) (s : PState)
    (out : List Node) (h : (parse_def tbl fuel cn im s).1 = .ok out) :
    ∀ x ∈ out, GoodDef x := by
  intro x hx
  obtain ⟨hg, mf, proto, body, hx', -⟩ := parse_def_good tbl fuel cn im s out h x hx
  subst hx'
  exact ⟨hg, rfl⟩

theorem impl_body_good (tbl : PrecTable) : ∀ fuel cn nm acc s out,
    (∀ x ∈ acc, GoodDef x) → (parse_impl_body tbl fuel cn nm acc s).1 = .ok out →
    ∀ x ∈ out, GoodDef x := by
  intro fuel
  induction fuel with
  | zero => intro cn nm acc s out _ h; simp [parse_impl_body] at h
  | succ fuel ih =>
    intro cn nm acc s out hacc h
    simp only [parse_impl_body] at h
    split at h
    · simp at h
    · split at h
      · simp at h
      · rename_i heq
        refine ih cn nm _ _ out ?_ h
        intro x hx
        rcases List.mem_append.mp hx with hx | hx
        · exact hacc x hx
        · exact parse_def_goodDef tbl fuel cn nm _ _ (by rw [heq]) x hx
    · simp only [Except.ok.injEq] at h
      subst h
      exact hacc
    · simp at h

theorem parse_impl_good (tbl : PrecTable) (fuel : Nat) (cn : String) (s : PState)
    (out : List Node) (h : (parse_impl tbl fuel cn s).1 = .ok out) :
    ∀ x ∈ out, GoodDef x := by
  simp only [parse_impl] at h
  split at h
  · simp at h
  · split at h
    · simp at h
    · split at h
      · simp at h
      · exact impl_body_good tbl fuel cn _ [] _ out (by simp) h
      · simp at h
  · simp at h

theorem trait_body_good (tbl : PrecTable) : ∀ fuel nm acc s out,
    (∀ x ∈ acc, GoodDef x) → (parse_trait_body tbl fuel nm acc s).1 = .ok out →
    ∀ x ∈ out, GoodDef x := by
  intro fuel
  induction fuel with
  | zero => intro nm acc s out _ h; simp [parse_trait_body] at h
  | succ fuel ih =>
    intro nm acc s out hacc h
    simp only [parse_trait_body] at h
    split at h
    · simp at h
    · split at h
      · simp at h
      · rename_i heq
        refine ih nm _ _ out ?_ h
        intro x hx
        rcases List.mem_append.mp hx with hx | hx
        · exact hacc x hx
        · exact parse_def_goodDef tbl fuel nm "" _ _ (by rw [heq]) x hx
    · simp only [Except.ok.injEq] at h
      subst h
      exact hacc
    · simp at h

theorem parse_trait_good (tbl : PrecTable) (fuel : Nat) (s : PState)
    (out : List Node) (h : (parse_trait tbl fuel s).1 = .ok out) :
    ∀ x ∈ out, GoodDef x := by
  simp only [parse_trait] at h
  split at h
  · simp at h
  · split at h
    · simp at h
    · split at h
      · simp at h
      · exact trait_body_good tbl fuel _ [] _ out (by simp) h
      · simp at h
  · simp at h

theorem class_body_good (tbl : PrecTable) : ∀ fuel cn acc s out,
    (∀ x ∈ acc, GoodDef x) → (parse_class_body tbl fuel cn acc s).1 = .ok out →
    ∀ x ∈ out, GoodDef x := by
  intro fuel
  induction fuel with
  | zero => intro cn acc s out _ h; simp [parse_class_body] at h
  | succ fuel ih =>
    intro cn acc s out hacc h
    simp only [parse_class_body] at h
    split at h
    · simp at h
    · split at h
      · simp at h
      · rename_i heq
        refine ih cn _ _ out ?_ h
        intro x hx
        rcases List.mem_append.mp hx with hx | hx
        · exact hacc x hx
        · exact parse_def_goodDef tbl fuel cn "" _ _ (by rw [heq]) x hx
    · split at h
      · simp at h
      · rename_i heq
        refine ih cn _ _ out ?_ h
        intro x hx
        rcases List.mem_append.mp hx with hx | hx
        · exact hacc x hx
        · exact parse_impl_good tbl fuel cn _ _ (by rw [heq]) x hx
    · simp only [Except.ok.injEq] at h
      subst h
      exact hacc
    · simp at h

theorem parse_class_good (tbl : PrecTable) (fuel : Nat) (s : PState)
    (out : List Node) (h : (parse_class tbl fuel s).1 = .ok out) :
    ∀ x ∈ out, GoodDef x := by
  simp only [parse_class] at h
  split at h
  · simp at h
  · split at h
    · simp at h
    · split at h
      · simp at h
      · exact class_body_good tbl fuel _ [] _ out (by simp) h
      · simp at h
  · simp at h

theorem parse_top_good (tbl : PrecTable) : ∀ fuel acc s out,
    (∀ x ∈ acc, GoodDef x) → (parse_top tbl fuel acc s).1 = .ok out →
    ∀ x ∈ out, GoodDef x := by
  intro fuel
  induction fuel with
  | zero => intro acc s out _ h; simp [parse_top] at h
  | succ fuel ih =>
    intro acc s out hacc h
    simp only [parse_top] at h
    split at h
    · simp only [Except.ok.injEq] at h
      subst h
      exact hacc
    · split at h
      · simp at h
      · split at h
        · simp at h
        · rename_i heq
          refine ih _ _ out ?_ h
          intro x hx
          rcases List.mem_append.mp hx with hx | hx
          · exact hacc x hx
          · exact parse_class_good tbl fuel _ _ (by rw [heq]) x hx
      · split at h
        · simp at h
        · rename_i heq
          refine ih _ _ out ?_ h
          intro x hx
          rcases List.mem_append.mp hx with hx | hx
          · exact hacc x hx
          · exact parse_trait_good tbl fuel _ _ (by rw [heq]) x hx
      · split at h
        · simp at h
        · rename_i heq
          refine ih _ _ out ?_ h
          intro x hx
          rcases List.mem_append.mp hx with hx | hx
          · exact hacc x hx
          · exact parse_def_goodDef tbl fuel "" "" _ _ (by rw [heq]) x hx
      · simp at h

theorem parse_good (tbl : PrecTable) (fuel : Nat) (tokens : List Token) (m : Node)
    (h : parse tbl fuel tokens = .ok m) :
    ∃ body, m = .Module body ∧ ∀ x ∈ body, GoodDef x := by
  simp only [parse] at h
  split at h
  · rename_i heq
    simp only [Except.ok.injEq] at h
    subst h
    exact ⟨_, rfl, parse_top_good tbl fuel [] ⟨tokens, 0⟩ _ (by simp) (by rw [heq])⟩
  · simp at h

/-! ## Concrete inputs used by the claim theorems -/

/-- A standard precedence table with `'*'` binding tighter than `'+'`. -/
def stdTbl : PrecTable := [('+', 20), ('*', 40)]

/-- The prototype of a zero-argument `main` with no return type. -/
def protoMain : Prototype := ⟨"main", [], none, false, 0⟩

/-- An empty parsing context inside `def main`. -/
def ctx0 : ParserContext := ⟨[], protoMain⟩

/-- Tokens of `def main` followed by a body expression starting with `,`. -/
def c1toksA : List Token := [.Def, .Space 0, .Ident 0 "main", .NewLine 0, .Comma]

/-- Tokens of `def` followed by only a space (the prototype parser then
reads `curr` past the end of the stream). -/
def c1toksB : List Token := [.Def, .Space 0]

/-- Tokens of `trait ToString` containing the bodyless
`def to_string() -> Str` whose `end` terminator is shared with the
trait's own terminator. -/
def c3toks : List Token :=
  [.Trait, .Space 0, .Const 0 "ToString", .NewLine 0,
   .Space 0, .Def, .Space 0, .Ident 0 "to_string", .LParen, .RParen,
   .Space 0, .Arrow, .Space 0, .Const 0 "Str", .NewLine 0, .End, .NewLine 0]

/-- The member list the trait program `c3toks` parses to: the single
bodyless `Def`, tagged with the trait name. -/
def c3body : List Node :=
  [.Def false ⟨"to_string", [], some .StringType, false, 0⟩ [] "ToString" ""]

/-- Tokens of the expression `1 + 2 * 3` as it appears inside a def body
(trailing newline and `end`). -/
def toksE1 : List Token :=
  [.Number 0 1, .Space 0, .Op '+', .Space 0, .Number 0 2, .Space 0,
   .Op '*', .Space 0, .Number 0 3, .NewLine 0, .End]

/-- Tokens of the expression `1 * 2 + 3` as it appears inside a def body. -/
def toksE2 : List Token :=
  [.Number 0 1, .Space 0, .Op '*', .Space 0, .Number 0 2, .Space 0,
   .Op '+', .Space 0, .Number 0 3, .NewLine 0, .End]

/-- Tokens of `def main` with body `a = 1` then `a.b().c()`. -/
def c5good : List Token :=
  [.Def, .Space 0, .Ident 0 "main", .NewLine 0,
   .Space 0, .Ident 0 "a", .Space 0, .Assign, .Space 0, .Number 0 1, .NewLine 0,
   .Space 0, .Ident 0 "a", .Dot, .Ident 0 "b", .LParen, .RParen,
   .Dot, .Ident 0 "c", .LParen, .RParen, .NewLine 0, .End, .NewLine 0]

/-- Tokens of `def main` with body `a = 1` then the bare chain `a.b.c`. -/
def c5bad : List Token :=
  [.Def, .Space 0, .Ident 0 "main", .NewLine 0,
   .Space 0, .Ident 0 "a", .Space 0, .Assign, .Space 0, .Number 0 1, .NewLine 0,
   .Space 0, .Ident 0 "a", .Dot, .Ident 0 "b", .Dot, .Ident 0 "c",
   .NewLine 0, .End, .NewLine 0]

/-- The module `c5good` parses to: the chain is a left-associative
`Send(Send(LocalVar "a", Call "b"), Call "c")`. -/
def c5module : Node :=
  .Module [.Def true protoMain
    [.AssignLocalVar "a" (.Int 1),
     .Send (.Send (.LocalVar "a" (some (.Undef ("Int")))) (.Call "b" []))
       (.Call "c" [])] "" ""]

/-- Tokens of `def main` with body `x = 5` then the reference `x`. -/
def c6a : List Token :=
  [.Def, .Space 0, .Ident 0 "main", .NewLine 0,
   .Space 0, .Ident 0 "x", .Space 0, .Assign, .Space 0, .Number 0 5, .NewLine 0,
   .Space 0, .Ident 0 "x", .NewLine 0, .End, .NewLine 0]

/-- The module `c6a` parses to: the reference resolves to
`LocalVar "x" (some (Undef "Int"))`. -/
def c6aModule : Node :=
  .Module [.Def true protoMain
    [.AssignLocalVar "x" (.Int 5),
     .LocalVar "x" (some (.Undef ("Int")))] "" ""]

/-- Tokens of `def f(n Int)` with body consisting of the reference `n`. -/
def c6b : List Token :=
  [.Def, .Space 0, .Ident 0 "f", .LParen, .Ident 0 "n", .Space 0,
   .Const 0 "Int", .RParen, .NewLine 0, .Space 0, .Ident 0 "n", .NewLine 0,
   .End, .NewLine 0]

/-- The module `c6b` parses to: the parameter reference resolves via the
argument list to `LocalVar "n" (some (Undef "Int"))`. -/
def c6bModule : Node :=
  .Module [.Def false ⟨"f", [⟨"n", .Int⟩], none, false, 0⟩
    [.LocalVar "n" (some (.Undef ("Int")))] "" ""]

/-- Tokens of `def main` with body `a = 1` then `a.b = 2`. -/
def c7toks : List Token :=
  [.Def, .Space 0, .Ident 0 "main", .NewLine 0,
   .Space 0, .Ident 0 "a", .Space 0, .Assign, .Space 0, .Number 0 1, .NewLine 0,
   .Space 0, .Ident 0 "a", .Dot, .Ident 0 "b", .Space 0, .Assign, .Space 0,
   .Number 0 2, .NewLine 0, .End, .NewLine 0]

/-- The module `c7toks` parses to: it contains a `Send` whose message is
an `AssignLocalVar` node. -/
def c7module : Node :=
  .Module [.Def true protoMain
    [.AssignLocalVar "a" (.Int 1),
     .Send (.LocalVar "a" (some (.Undef ("Int"))))
       (.AssignLocalVar "b" (.Int 2))] "" ""]

/-- Tokens of a bare `def main` with empty body. -/
def c10toks : List Token :=
  [.Def, .Space 0, .Ident 0 "main", .NewLine 0, .End, .NewLine 0]

/-! ## Claim theorems -/

/-- Claim C1 (code bug): the specification states that every parsing
function returns either its result or an error value and that no call
into the parser panics — in particular not when an expression begins
with an unexpected token and not when the cursor is read at or past the
end of the token sequence.  The code violates exactly those two spots:
a def body whose expression begins with `,` reaches the literal `panic!`
in `parse_primary` (whose dead `Err("Unknown expression.")` line shows
the intended behaviour), and `def` followed by only a space makes
`parse_prototype` read the unchecked `curr` index past the end of the
stream.  Both complete runs of `parse` abort with a panic instead of
returning an error value. -/
theorem c1_parse_panics :
    parse stdTbl 50 c1toksA = .error .panicked
    ∧ parse stdTbl 50 c1toksB = .error .panicked :=
  ⟨rfl, rfl⟩

/-- Claim C2 (confirmed): for every parser state, `get_tok_precedence`
returns the precedence mapped in the supplied table when the current
token is an `Op` whose character is in the table, returns exactly 100
when the current token is an `Op` whose character is not in the table,
and returns −1 when the current token is not an `Op` or the stream is
exhausted. -/
theorem c2_get_tok_precedence_spec (tbl : PrecTable) (s : PState) :
    (∀ c p, current s = .ok (.Op c) → lookupPrec tbl c = some p →
      get_tok_precedence tbl s = p)
    ∧ (∀ c, current s = .ok (.Op c) → lookupPrec tbl c = none →
      get_tok_precedence tbl s = 100)
    ∧ (∀ t, current s = .ok t → (∀ c, t ≠ .Op c) → get_tok_precedence tbl s = -1)
    ∧ (∀ e, current s = .error e → get_tok_precedence tbl s = -1) := by
  refine ⟨?_, ?_, ?_, ?_⟩
  · intro c p hc hp
    simp [get_tok_precedence, hc, hp]
  · intro c hc hp
    simp [get_tok_precedence, hc, hp]
  · intro t ht hne
    simp only [get_tok_precedence, ht]
    cases t <;> first | rfl | exact absurd rfl (hne _)
  · intro e he
    simp [get_tok_precedence, he]

/-- Witness for C2 at concrete states: a mapped operator, an unmapped
operator, a non-operator token, and an exhausted stream. -/
theorem c2_witness :
    get_tok_precedence [('+', 20)] ⟨[.Op '+'], 0⟩ = 20
    ∧ get_tok_precedence [] ⟨[.Op '+'], 0⟩ = 100
    ∧ get_tok_precedence [('+', 20)] ⟨[.End], 0⟩ = -1
    ∧ get_tok_precedence [('+', 20)] ⟨[.End], 1⟩ = -1 :=
  ⟨(c2_get_tok_precedence_spec [('+', 20)] ⟨[.Op '+'], 0⟩).1 '+' 20 rfl rfl,
   (c2_get_tok_precedence_spec [] ⟨[.Op '+'], 0⟩).2.1 '+' rfl rfl,
   (c2_get_tok_precedence_spec [('+', 20)] ⟨[.End], 0⟩).2.2.1 .End rfl
     (fun c h => Token.noConfusion h),
   (c2_get_tok_precedence_spec [('+', 20)] ⟨[.End], 1⟩).2.2.2
     (.msg "Position doesn't match the token count") rfl⟩

/-- Claim C3 (confirmed): in `parse_def`, when `End` is reached with a
non-empty accumulated body the `End` token is consumed, and when the
body is empty it is left unconsumed; consequently a bodyless def
immediately followed by the enclosing trait's `end` parses as a single
bodyless `Def` whose shared `End` terminator also terminates the
enclosing block — an empty-body `Def` never consumes two `End`
tokens. -/
theorem c3_def_end_quirk :
    (∀ tbl fuel proto body s, current (skipWs s) = .ok .End →
      parse_def_body tbl (fuel + 1) proto body s
        = if body.length > 0 then (.ok body, advanceState (skipWs s))
          else (.ok body, skipWs s))
    ∧ parse stdTbl 50 c3toks = .ok (.Module c3body) := by
  constructor
  · intro tbl fuel proto body s h
    simp only [parse_def_body, h]
  · rfl

/-- Witness for C3: one `End`-step of the def-body loop with a non-empty
body consumes the `End` (position 0 → 1), and with an empty body leaves
it unconsumed (position 0). -/
theorem c3_witness :
    parse_def_body stdTbl 1 protoMain [.Int 1] ⟨[.End], 0⟩
      = (.ok [.Int 1], ⟨[.End], 1⟩)
    ∧ parse_def_body stdTbl 1 protoMain [] ⟨[.End], 0⟩ = (.ok [], ⟨[.End], 0⟩) := by
  constructor
  · rw [show (1 : Nat) = 0 + 1 from rfl,
      c3_def_end_quirk.1 stdTbl 0 protoMain [.Int 1] ⟨[.End], 0⟩ rfl]
    rfl
  · rw [show (1 : Nat) = 0 + 1 from rfl,
      c3_def_end_quirk.1 stdTbl 0 protoMain [] ⟨[.End], 0⟩ rfl]
    rfl

/-- Counterexample to claim C4 as stated: the table `{'+' ↦ −2, '*' ↦ 5}`
has `'*'` at higher precedence than `'+'`, yet parsing `1 + 2 * 3` yields
only `Int 1` (not the claimed `Binary` tree), because the climbing loop
starts at minimum precedence 0 and a negative `'+'`-precedence fails the
`curr_prec < prec` test immediately. -/
theorem c4_counterexample :
    parse_expr [('+', -2), ('*', 5)] 20 ctx0 ⟨toksE1, 0⟩
      = (.ok (.Int 1), ⟨toksE1, 2⟩)
    ∧ ((-2 : Int) < 5) :=
  ⟨rfl, by decide⟩

/-- Claim C4 (amended): with a precedence table in which `'*'` has higher
precedence than `'+'` and the precedence of `'+'` is non-negative,
parsing `1 + 2 * 3` yields `Binary('+', Int 1, Binary('*', Int 2, Int 3))`
and parsing `1 * 2 + 3` yields
`Binary('+', Binary('*', Int 1, Int 2), Int 3)`: subsequent operators of
equal or lower precedence fold left-associatively. -/
theorem c4_precedence (pp pm : Int) (fuel : Nat) (h0 : 0 ≤ pp) (hlt : pp < pm) :
    parse_expr [('+', pp), ('*', pm)] (fuel + 6) ctx0 ⟨toksE1, 0⟩
      = (.ok (.Binary '+' (.Int 1) (.Binary '*' (.Int 2) (.Int 3))), ⟨toksE1, 10⟩)
    ∧ parse_expr [('+', pp), ('*', pm)] (fuel + 6) ctx0 ⟨toksE2, 0⟩
      = (.ok (.Binary '+' (.Binary '*' (.Int 1) (.Int 2)) (.Int 3)), ⟨toksE2, 10⟩) := by
  constructor
  · have step0 : parse_expr [('+', pp), ('*', pm)] (fuel + 6) ctx0 ⟨toksE1, 0⟩
        = parse_binary_expr [('+', pp), ('*', pm)] (fuel + 5) ctx0 0 (.Int 1) ⟨toksE1, 2⟩ := rfl
    rw [step0]
    rw [show (fuel + 5) = (fuel + 4) + 1 from rfl]
    rw [parse_binary_step_climb [('+', pp), ('*', pm)] (fuel + 4) ctx0 0 (.Int 1)
      ⟨toksE1, 2⟩ ⟨toksE1, 3⟩ ⟨toksE1, 6⟩ ⟨toksE1, 10⟩ '+' pp pm (.Int 2)
      (.Binary '*' (.Int 2) (.Int 3))
      rfl rfl (by omega) rfl rfl rfl hlt ?hrec]
    case hrec =>
      show parse_binary_expr [('+', pp), ('*', pm)] ((fuel + 3) + 1) ctx0 (pp + 1)
        (.Int 2) ⟨toksE1, 6⟩ = _
      rw [parse_binary_step_noclimb [('+', pp), ('*', pm)] (fuel + 3) ctx0 (pp + 1)
        (.Int 2) ⟨toksE1, 6⟩ ⟨toksE1, 7⟩ ⟨toksE1, 10⟩ '*' pm (-1) (.Int 3)
        rfl rfl (by omega) rfl rfl rfl (by omega)]
      exact parse_binary_end [('+', pp), ('*', pm)] (fuel + 2) ctx0 (pp + 1)
        (.Binary '*' (.Int 2) (.Int 3)) ⟨toksE1, 10⟩ rfl
    show parse_binary_expr [('+', pp), ('*', pm)] ((fuel + 3) + 1) ctx0 0
      (.Binary '+' (.Int 1) (.Binary '*' (.Int 2) (.Int 3))) ⟨toksE1, 10⟩ = _
    exact parse_binary_end [('+', pp), ('*', pm)] (fuel + 3) ctx0 0
      (.Binary '+' (.Int 1) (.Binary '*' (.Int 2) (.Int 3))) ⟨toksE1, 10⟩ rfl
  · have step0 : parse_expr [('+', pp), ('*', pm)] (fuel + 6) ctx0 ⟨toksE2, 0⟩
        = parse_binary_expr [('+', pp), ('*', pm)] (fuel + 5) ctx0 0 (.Int 1) ⟨toksE2, 2⟩ := rfl
    rw [step0]
    rw [show (fuel + 5) = (fuel + 4) + 1 from rfl]
    rw [parse_binary_step_noclimb [('+', pp), ('*', pm)] (fuel + 4) ctx0 0 (.Int 1)
      ⟨toksE2, 2⟩ ⟨toksE2, 3⟩ ⟨toksE2, 6⟩ '*' pm pp (.Int 2)
      rfl rfl (by omega) rfl rfl rfl (by omega)]
    show parse_binary_expr [('+', pp), ('*', pm)] ((fuel + 3) + 1) ctx0 0
      (.Binary '*' (.Int 1) (.Int 2)) ⟨toksE2, 6⟩ = _
    rw [parse_binary_step_noclimb [('+', pp), ('*', pm)] (fuel + 3) ctx0 0
      (.Binary '*' (.Int 1) (.Int 2)) ⟨toksE2, 6⟩ ⟨toksE2, 7⟩ ⟨toksE2, 10⟩ '+' pp (-1)
      (.Int 3) rfl rfl (by omega) rfl rfl rfl (by omega)]
    exact parse_binary_end [('+', pp), ('*', pm)] (fuel + 2) ctx0 0
      (.Binary '+' (.Binary '*' (.Int 1) (.Int 2)) (.Int 3)) ⟨toksE2, 10⟩ rfl

/-- Witness for C4 at the concrete table `{'+' ↦ 20, '*' ↦ 40}`. -/
theorem c4_witness :
    parse_expr [('+', 20), ('*', 40)] (0 + 6) ctx0 ⟨toksE1, 0⟩
      = (.ok (.Binary '+' (.Int 1) (.Binary '*' (.Int 2) (.Int 3))), ⟨toksE1, 10⟩)
    ∧ parse_expr [('+', 20), ('*', 40)] (0 + 6) ctx0 ⟨toksE2, 0⟩
      = (.ok (.Binary '+' (.Binary '*' (.Int 1) (.Int 2)) (.Int 3)), ⟨toksE2, 10⟩) :=
  c4_precedence 20 40 0 (by decide) (by decide)

/-- Counterexample to claim C5 as stated: with `a` a resolvable local,
the bare chain `a.b.c` does not parse successfully — `b` is treated as a
local-variable reference, fails resolution, and the whole parse aborts
with the unresolved-variable error. -/
theorem c5_counterexample :
    parse stdTbl 50 c5bad = .error (.msg "Local variable isn't assigned anywhere") :=
  rfl

/-- Claim C5 (amended): when `a` is a resolvable local variable, parsing
`a.b().c()` (the bare chain `a.b.c` instead fails resolution of `b`)
succeeds and yields the left-associative tree
`Send(Send(LocalVar "a", Call "b"), Call "c")`. -/
theorem c5_send_chain : parse stdTbl 50 c5good = .ok c5module :=
  rfl

/-- Claim C6 (confirmed): when a def body contains `x = 5` followed by a
reference to `x`, the reference parses to
`LocalVar{name := "x", return_type := some (Undef "Int")}`; and when the
prototype declares a parameter `n Int` and the body contains no
assignment to `n`, a reference to `n` resolves to the same shape via the
argument list. -/
theorem c6_type_inference :
    parse stdTbl 50 c6a = .ok c6aModule ∧ parse stdTbl 50 c6b = .ok c6bModule :=
  ⟨rfl, rfl⟩

/-- Counterexample to claim C7 as stated: the accepted program
`def main` / `a = 1` / `a.b = 2` / `end` produces a `Send` node whose
message is an `AssignLocalVar` node, so not every `Send` message is a
`Call` or `LocalVar`. -/
theorem c7_counterexample :
    parse stdTbl 50 c7toks = .ok c7module ∧ sendMsgSpec c7module = false :=
  ⟨rfl, rfl⟩

/-- Claim C7 (amended): every `Send` node produced by the parser has a
message child that is either a `Call`, a `LocalVar`, or an
`AssignLocalVar` node, for every input accepted by `parse`. -/
theorem c7_send_message_kinds (tbl : PrecTable) (fuel : Nat) (toks : List Token)
    (m : Node) (h : parse tbl fuel toks = .ok m) : sendMsgOk m = true := by
  obtain ⟨body, rfl, hb⟩ := parse_good tbl fuel toks m h
  simp only [sendMsgOk]
  rw [sendMsgOkList_eq_forall]
  intro x hx
  exact ((hb x hx).1).1

/-- Witness for C7 at the accepted program `c7toks`. -/
theorem c7_witness : sendMsgOk c7module = true :=
  c7_send_message_kinds stdTbl 50 c7toks c7module rfl

/-- Counterexample to claim C8 as stated: with two tokens, advancing the
cursor from position 0 *to* the last valid index (1 = length − 1), with
no tokens remaining beyond it, succeeds — it is not treated as a
failure. -/
theorem c8_counterexample :
    advance ⟨[.End, .End], 0⟩ = (.ok (), ⟨[.End, .End], 1⟩)
    ∧ ([Token.End, Token.End] : List Token).length - 1 = 1 :=
  ⟨rfl, rfl⟩

/-- Claim C8 (amended): `advance` always moves the cursor forward by one
and fails exactly when the move would run past the end of the token
sequence, i.e. exactly when the new position is not a valid index;
moving to the last valid index succeeds. -/
theorem c8_advance_spec (s : PState) :
    (advance s).2.pos = s.pos + 1
    ∧ ((advance s).1 = .ok () ↔ s.pos + 1 < s.tokens.length) := by
  simp only [advance, advanceState]
  constructor
  · split <;> rfl
  · split
    · rename_i hlt
      simp [hlt]
    · rename_i hge
      simp [hge]

/-- Witness for C8 at a concrete two-token state. -/
theorem c8_witness :
    (advance ⟨[.End, .End], 0⟩).2.pos = (⟨[.End, .End], 0⟩ : PState).pos + 1
    ∧ ((advance ⟨[.End, .End], 0⟩).1 = .ok ()
      ↔ (⟨[.End, .End], 0⟩ : PState).pos + 1
          < (⟨[.End, .End], 0⟩ : PState).tokens.length) :=
  c8_advance_spec ⟨[.End, .End], 0⟩

/-- Claim C9 (confirmed): for every input accepted by `parse`, every
element of the returned `Module`'s body is a `Def` node; `parse_class`,
`parse_trait` and `parse_impl` each return a flattened list of `Def`
nodes, and the parser never constructs a `Class`, `Trait` or `Impl` node
anywhere in the result. -/
theorem c9_module_body_defs :
    (∀ tbl fuel toks m, parse tbl fuel toks = .ok m →
      ∃ body, m = .Module body ∧ (∀ x ∈ body, isDefB x = true) ∧ noCTI m = true)
    ∧ (∀ tbl fuel s out, (parse_class tbl fuel s).1 = .ok out →
      ∀ x ∈ out, isDefB x = true)
    ∧ (∀ tbl fuel s out, (parse_trait tbl fuel s).1 = .ok out →
      ∀ x ∈ out, isDefB x = true)
    ∧ (∀ tbl fuel cn s out, (parse_impl tbl fuel cn s).1 = .ok out →
      ∀ x ∈ out, isDefB x = true) := by
  refine ⟨?_, ?_, ?_, ?_⟩
  · intro tbl fuel toks m h
    obtain ⟨body, rfl, hb⟩ := parse_good tbl fuel toks m h
    refine ⟨body, rfl, fun x hx => (hb x hx).2, ?_⟩
    simp only [noCTI]
    rw [noCTIList_eq_forall]
    intro x hx
    exact ((hb x hx).1).2
  · intro tbl fuel s out h x hx
    exact (parse_class_good tbl fuel s out h x hx).2
  · intro tbl fuel s out h x hx
    exact (parse_trait_good tbl fuel s out h x hx).2
  · intro tbl fuel cn s out h x hx
    exact (parse_impl_good tbl fuel cn s out h x hx).2

/-- Witness for C9 at the accepted trait program `c3toks`. -/
theorem c9_witness :
    ∃ body, Node.Module c3body = .Module body
      ∧ (∀ x ∈ body, isDefB x = true) ∧ noCTI (Node.Module c3body) = true :=
  c9_module_body_defs.1 stdTbl 50 c3toks (.Module c3body) rfl

/-- Claim C10 (confirmed): for every function definition accepted by
`parse_def`, the resulting `Def` node's `main_fn` flag is `true` if and
only if the prototype name is exactly `"main"`. -/
theorem c10_main_fn_flag (tbl : PrecTable) (fuel : Nat) (cn im : String) (s : PState)
    (out : List Node) (h : (parse_def tbl fuel cn im s).1 = .ok out) :
    ∀ mf proto body cn2 im2, Node.Def mf proto body cn2 im2 ∈ out →
      (mf = true ↔ proto.name = "main") := by
  intro mf proto body cn2 im2 hmem
  obtain ⟨-, mf2, proto2, body2, heq, hmf⟩ :=
    parse_def_good tbl fuel cn im s out h _ hmem
  simp only [Node.Def.injEq] at heq
  obtain ⟨h1, h2, -, -, -⟩ := heq
  subst h1
  subst h2
  subst hmf
  exact beq_iff_eq

/-- Witness for C10 at the bare `def main` program `c10toks`. -/
theorem c10_witness : (true = true ↔ protoMain.name = "main") :=
  c10_main_fn_flag stdTbl 30 "" "" ⟨c10toks, 0⟩ [.Def true protoMain [] "" ""] rfl
    true protoMain [] "" "" (List.mem_singleton.mpr rfl)

end NillaParser
